import Mathlib

/-!
Verification of the fatigue/injury-risk scoring core of the AILeague
football-analysis repository.

Speed samples, metric values and scores are modelled over `ℚ` (every IEEE
float is a rational number); the final logistic squashing is over `ℝ`.
A floating-point NaN outcome is modelled by `Option`: `none` stands for NaN.
-/

namespace AILeague

/-! ## Configuration constants (fatigue_risk_estimator.py, CONFIG block) -/

/-- Constant `SPRINT_SPEED = 7` (m/s). -/
def SPRINT_SPEED : ℚ := 7

/-- Constant `ACCEL_THRESHOLD = 2` (m/s²). -/
def ACCEL_THRESHOLD : ℚ := 2

/-- Constant `WINDOW_SEC = 30` (seconds of rolling window). -/
def WINDOW_SEC : ℕ := 30

/-- Weight `METRIC_WEIGHTS["speed_drop"] = 0.30`. -/
def wSpeedDrop : ℚ := 0.30

/-- Weight `METRIC_WEIGHTS["sprint_count"] = 0.25`. -/
def wSprintCount : ℚ := 0.25

/-- Weight `METRIC_WEIGHTS["accel_events"] = 0.15`. -/
def wAccelEvents : ℚ := 0.15

/-- Weight `METRIC_WEIGHTS["posture_deg"] = 0.20`. -/
def wPostureDeg : ℚ := 0.20

/-- Weight `METRIC_WEIGHTS["stride_reduction"] = 0.10`. -/
def wStrideReduction : ℚ := 0.10

/-- Window `self.window = WINDOW_SEC * fps` from `FatigueRiskEstimator.__init__`. -/
def windowSize (fps : ℕ) : ℕ := WINDOW_SEC * fps

/-! ## Small numeric helpers mirroring the numpy operations used -/

/-- Clamp `np.clip(x, 0, 1)`. -/
def clip01 (x : ℚ) : ℚ := min (max x 0) 1

/-- Mean `np.mean(l)`: sum divided by length. -/
def meanQ (l : List ℚ) : ℚ := l.sum / (l.length : ℚ)

/-- Python slice `l[-w:]` for `w ≥ 0`: the last `w` elements when `w > 0`,
the whole list when `w = 0` (Python's `l[-0:]` is `l[0:]`). -/
def pyTakeLast (w : ℕ) (l : List α) : List α :=
  if w = 0 then l else l.drop (l.length - w)

/-- Insertion into a sorted list (ascending), for the sort that
`np.percentile` performs internally. -/
def insertQ (x : ℚ) : List ℚ → List ℚ
  | [] => [x]
  | y :: ys => if x ≤ y then x :: y :: ys else y :: insertQ x ys

/-- Ascending sort of the samples, as `np.percentile` sorts its input. -/
def sortQ (l : List ℚ) : List ℚ := l.foldr insertQ []

/-- Percentile `np.percentile(speeds, 90)` with the default linear interpolation:
virtual index `0.9 * (n - 1)`; with `m = 9 * (n - 1)`, the integer part is
`m / 10` and the fractional part `(m % 10) / 10`, both exact over `ℚ`. -/
def percentile90 (l : List ℚ) : ℚ :=
  let s := sortQ l
  let m := 9 * (l.length - 1)
  let k := m / 10
  let lo := s.getD k 0
  let hi := s.getD (k + 1) lo
  lo + (((m % 10 : ℕ) : ℚ) / 10) * (hi - lo)

/-- Differences `np.diff(speeds)`: consecutive entries subtracted. -/
def diffs : List ℚ → List ℚ
  | [] => []
  | [_] => []
  | x :: y :: r => (y - x) :: diffs (y :: r)

/-! ## The metric normalizers of `_compute_fatigue` -/

/-- The `speed_drop` metric:
`baseline = np.percentile(speeds, 90)`,
`recent = np.mean(speeds[-self.window//2:])`
(Python's `-self.window // 2` is `-((window + 1) / 2)`, a ceiling),
`speed_drop = np.clip((baseline - recent) / baseline, 0, 1)`.
The source has no guard for `baseline == 0`: in IEEE arithmetic the
division then yields NaN when `recent == 0` (modelled as `none`) and
`±∞` otherwise, which `np.clip` maps to `0` (for `-∞`, `recent > 0`)
or `1` (for `+∞`, `recent < 0`). -/
def speedDropMetric (fps : ℕ) (h : List ℚ) : Option ℚ :=
  let baseline := percentile90 h
  let recent := meanQ (pyTakeLast ((windowSize fps + 1) / 2) h)
  if baseline = 0 then
    if recent = 0 then none
    else some (if recent < 0 then 1 else 0)
  else some (clip01 ((baseline - recent) / baseline))

/-- The `sprint_count` metric: count of samples strictly above
`SPRINT_SPEED`, normalized by `WINDOW_SEC / 10` and clipped. -/
def sprintNorm (h : List ℚ) : ℚ :=
  let sprint_count : ℕ := h.countP (fun s => decide (SPRINT_SPEED < s))
  clip01 ((sprint_count : ℚ) / ((WINDOW_SEC : ℚ) / 10))

/-- The `accel_events` metric: `accel = np.diff(speeds) * fps`, count of
entries strictly above `ACCEL_THRESHOLD`, normalized by `WINDOW_SEC / 5`
and clipped. -/
def accelNorm (fps : ℕ) (h : List ℚ) : ℚ :=
  let accel_events : ℕ :=
    (diffs h).countP (fun d => decide (ACCEL_THRESHOLD < d * (fps : ℚ)))
  clip01 ((accel_events : ℚ) / ((WINDOW_SEC : ℚ) / 5))

/-- Placeholder `posture_deg = 0.0`. -/
def postureDeg : ℚ := 0

/-- Placeholder `stride_red = 0.0`. -/
def strideRed : ℚ := 0

/-- The weighted fatigue score:
`score = sum(metrics[k] * METRIC_WEIGHTS[k] for k in METRIC_WEIGHTS)`. -/
def scoreOf (sd sc ae pd sr : ℚ) : ℚ :=
  sd * wSpeedDrop + sc * wSprintCount + ae * wAccelEvents +
    pd * wPostureDeg + sr * wStrideReduction

/-- The logistic squashing `risk_pct = 100 / (1 + np.exp(-10*(score-0.5)))`. -/
noncomputable def riskOfScore (score : ℚ) : ℝ :=
  100 / (1 + Real.exp (-10 * ((score : ℝ) - 0.5)))

/-- Function `FatigueRiskEstimator._compute_fatigue` on an entity's history `h`
(`self.history[pid]`): returns `some 0` below 5 samples, otherwise the
logistic of the weighted score; `none` models the NaN produced when the
unguarded `speed_drop` division is `0/0` (it propagates through the sum
and the logistic). -/
noncomputable def computeFatigue (fps : ℕ) (h : List ℚ) : Option ℝ :=
  if h.length < 5 then some 0
  else
    match speedDropMetric fps h with
    | none => none
    | some sd =>
        some (riskOfScore (scoreOf sd (sprintNorm h) (accelNorm fps h) postureDeg strideRed))

/-! ## The per-frame state threader (`FatigueRiskEstimator.update_metrics`) -/

/-- Append `self.history[pid].append(spd_mps)` followed by the trim
`if len(self.history[pid]) > self.window: self.history[pid] = self.history[pid][-self.window:]`. -/
def record (window : ℕ) (h : List ℚ) (s : ℚ) : List ℚ :=
  let h2 := h ++ [s]
  if window < h2.length then pyTakeLast window h2 else h2

/-- A per-frame track record as `update_metrics` sees it: an optional
`speed` entry (km/h; `none` models a missing sample) and an optional
`risk` entry (`none` models the key being absent; the inner `Option ℝ`
is a risk value that may itself be NaN). -/
structure Track where
  speed : Option ℚ
  risk : Option (Option ℝ)

/-- The estimator's mutable state: `self.history` and `self.risk`,
both `defaultdict`s (empty list, `0.0`). A stored risk of `none`
models a NaN stored by an unguarded `_compute_fatigue`. -/
structure EstState where
  history : ℕ → List ℚ
  risk : ℕ → Option ℝ

/-- The freshly constructed estimator: empty histories, `0.0` risks. -/
def initState : EstState := ⟨fun _ => [], fun _ => some 0⟩

/-- The body of the `for pid, trk in tracks.items()` loop of
`update_metrics`: skip the entity entirely when `speed` is missing;
otherwise convert km/h to m/s, append to the history (with trim),
recompute the stored risk when `frame_idx % self.window == 0 or
frame_idx == 0`, and write the stored risk into the record. -/
noncomputable def processTrack (fps frameIdx pid : ℕ) (trk : Track) (st : EstState) :
    Track × EstState :=
  match trk.speed with
  | none => (trk, st)
  | some spd =>
      let spdMps := spd / 3.6
      let hist := record (windowSize fps) (st.history pid) spdMps
      let st1 : EstState := ⟨fun p => if p = pid then hist else st.history p, st.risk⟩
      let st2 : EstState :=
        if frameIdx % windowSize fps = 0 ∨ frameIdx = 0 then
          ⟨st1.history, fun p => if p = pid then computeFatigue fps hist else st1.risk p⟩
        else st1
      ({ trk with risk := some (st2.risk pid) }, st2)

/-- Method `FatigueRiskEstimator.update_metrics(frame_idx, tracks)`: the loop over
the frame's track set (modelled as an association list in iteration
order), threading the estimator state and returning the updated records. -/
noncomputable def updateMetrics (fps frameIdx : ℕ) (tracks : List (ℕ × Track)) (st : EstState) :
    List (ℕ × Track) × EstState :=
  match tracks with
  | [] => ([], st)
  | (pid, trk) :: rest =>
      let r1 := processTrack fps frameIdx pid trk st
      let r2 := updateMetrics fps frameIdx rest r1.2
      ((pid, r1.1) :: r2.1, r2.2)

/-! ## The summary extractor (main.py, step 11 of `run_pipeline`) -/

/-- A player track record as the stats-dump loop reads it:
`trk.get("speed")`, `trk["distance"]`, `trk.get("risk", 0.0)`. -/
structure STrack where
  speed : Option ℚ
  distance : ℚ
  risk : Option ℝ

/-- Lookup `trk = tracks["players"][f].get(pid)` followed by
`if trk and trk.get("speed") is not None:` — the snapshot
`(speed, distance, risk)` read at one frame, `none` when the entity is
absent or its speed is missing. -/
def extractAt (pid : ℕ) (frame : ℕ → Option STrack) : Option (ℚ × ℚ × ℝ) :=
  match frame pid with
  | none => none
  | some trk =>
      match trk.speed with
      | none => none
      | some s => some (s, trk.distance, trk.risk.getD 0)

/-- Head-first scan of an already reversed frame list: the `break` at
the first frame with a valid speed. -/
def snapshotAux (pid : ℕ) : List (ℕ → Option STrack) → Option (ℚ × ℚ × ℝ)
  | [] => none
  | f :: rest =>
      match extractAt pid f with
      | some snap => some snap
      | none => snapshotAux pid rest

/-- Loop `for f_back in reversed(range(len(tracks["players"])))`: walk the
frames backwards and keep the first valid snapshot, defaulting to the
initial `speed, dist, risk = 0.0, 0.0, 0.0`. -/
def snapshot (frames : List (ℕ → Option STrack)) (pid : ℕ) : ℚ × ℚ × ℝ :=
  (snapshotAux pid frames.reverse).getD (0, 0, 0)

/-- Loop `for pid in risk_est.risk.keys(): summary[str(pid)] = ...` — one
summary row per listed entity, never omitting one. -/
def summaryOf (pids : List ℕ) (frames : List (ℕ → Option STrack)) :
    List (ℕ × (ℚ × ℚ × ℝ)) :=
  pids.map fun pid => (pid, snapshot frames pid)

/-! ## Ball-possession carry-forward (main.py, step 8 of `run_pipeline`) -/

/-- One frame's possession-relevant input: whether `tracks["ball"][f_idx]`
is non-empty, the pid returned by `assign_ball_to_player` (`-1` when no
player is close enough), and the players' `team` labels. -/
structure PossFrame where
  ballDetected : Bool
  ownerPid : Int
  team : Int → String

/-- The label appended for one frame, given the previous frames' labels
`acc` (the code reads `team_ball_control[-1]`). -/
def tbcGo (i : ℕ) (acc : List String) : List PossFrame → List String
  | [] => acc
  | pf :: rest =>
      if pf.ballDetected = false then
        tbcGo (i + 1) (acc ++ [if i = 0 then "none" else acc.getLastD "none"]) rest
      else if pf.ownerPid ≠ -1 then
        tbcGo (i + 1) (acc ++ [pf.team pf.ownerPid]) rest
      else
        tbcGo (i + 1) (acc ++ [if i = 0 then "none" else acc.getLastD "none"]) rest

/-- The `team_ball_control` list built by the possession loop of
`run_pipeline`. -/
def teamBallControl (frames : List PossFrame) : List String := tbcGo 0 [] frames

/-- The label of a single frame given the previous frame's label:
carry forward on a missing ball or an unassigned ball, otherwise the
owner's team. -/
def possLabel (i : ℕ) (prev : String) (pf : PossFrame) : String :=
  if pf.ballDetected = false then (if i = 0 then "none" else prev)
  else if pf.ownerPid ≠ -1 then pf.team pf.ownerPid
  else (if i = 0 then "none" else prev)

/-- Recursion computing `teamBallControl` by carrying the previous
label instead of re-reading the accumulated list. -/
def tbcAux (i : ℕ) (prev : String) : List PossFrame → List String
  | [] => []
  | pf :: rest => possLabel i prev pf :: tbcAux (i + 1) (possLabel i prev pf) rest

/-! ## Concrete fixtures used by the witnesses -/

/-- A frame at which entity 7 carries a full snapshot. -/
def wFrameAt (s d : ℚ) (r : ℝ) : ℕ → Option STrack :=
  fun p => if p = 7 then some ⟨some s, d, some r⟩ else none

/-- A frame at which entity 7 is present but its speed is missing. -/
def wFrameInvalid : ℕ → Option STrack :=
  fun p => if p = 7 then some ⟨none, 0, none⟩ else none

/-- The spec's summary round-trip vector: valid speed only at frames
0, 5 and 10, with risks 10, 20 and 30 there. -/
def wFrames : List (ℕ → Option STrack) :=
  [wFrameAt 1 4 10, wFrameInvalid, wFrameInvalid, wFrameInvalid, wFrameInvalid,
   wFrameAt 2 5 20, wFrameInvalid, wFrameInvalid, wFrameInvalid, wFrameInvalid,
   wFrameAt 3 6 30]

/-- Possession fixture: frame 0 without ball, frame 1 with an assigned
owner of team "A", frame 2 with a ball but no owner. -/
def wPoss : List PossFrame :=
  [⟨false, 5, fun _ => "X"⟩, ⟨true, 5, fun _ => "A"⟩, ⟨true, -1, fun _ => "B"⟩]

end AILeague

namespace AILeague

lemma clip01_nonneg (x : ℚ) : 0 ≤ clip01 x :=
  le_min (le_max_right x 0) (by norm_num)

lemma clip01_le_one (x : ℚ) : clip01 x ≤ 1 := min_le_right _ _

lemma riskOfScore_def (s : ℚ) :
    riskOfScore s = 100 / (1 + Real.exp (-10 * ((s : ℝ) - 0.5))) := rfl

lemma riskOfScore_pos (s : ℚ) : 0 < riskOfScore s := by
  unfold riskOfScore
  positivity

lemma riskOfScore_lt_100 (s : ℚ) : riskOfScore s < 100 := by
  unfold riskOfScore
  have he : 0 < Real.exp (-10 * ((s : ℝ) - 0.5)) := Real.exp_pos _
  rw [div_lt_iff₀ (by positivity)]
  nlinarith

lemma riskOfScore_strictMono {s t : ℚ} (h : s < t) : riskOfScore s < riskOfScore t := by
  unfold riskOfScore
  have hst : (s : ℝ) < (t : ℝ) := by exact_mod_cast h
  have he : Real.exp (-10 * ((t : ℝ) - 0.5)) < Real.exp (-10 * ((s : ℝ) - 0.5)) :=
    Real.exp_lt_exp.mpr (by linarith)
  exact div_lt_div_of_pos_left (by norm_num) (by positivity) (by linarith)

lemma computeFatigue_eq (fps : ℕ) (h : List ℚ) (h5 : 5 ≤ h.length)
    (hb : percentile90 h ≠ 0) :
    computeFatigue fps h =
      some (riskOfScore (scoreOf
        (clip01 ((percentile90 h - meanQ (pyTakeLast ((windowSize fps + 1) / 2) h)) / percentile90 h))
        (sprintNorm h) (accelNorm fps h) postureDeg strideRed)) := by
  have hsd : speedDropMetric fps h =
      some (clip01 ((percentile90 h - meanQ (pyTakeLast ((windowSize fps + 1) / 2) h)) / percentile90 h)) := by
    unfold speedDropMetric
    simp only [if_neg hb]
  unfold computeFatigue
  rw [if_neg (by omega), hsd]

/-- C5: an entity with fewer than 5 recorded samples (including one with
no samples at all) gets the defined risk `0.0` from `_compute_fatigue`,
not a failure. -/
theorem short_history_risk_zero (fps : ℕ) (h : List ℚ) (hlen : h.length < 5) :
    computeFatigue fps h = some 0 := by
  unfold computeFatigue
  rw [if_pos hlen]

theorem short_history_risk_zero_witness :
    computeFatigue 24 [] = some 0 :=
  short_history_risk_zero 24 [] (by norm_num)

lemma speedDropMetric_zeros : speedDropMetric 24 [0, 0, 0, 0, 0] = none := by
  norm_num [speedDropMetric, percentile90, sortQ, insertQ, List.getD, meanQ,
    pyTakeLast, windowSize, WINDOW_SEC]

/-- C2 (code evaluation at the failing input): on the five-sample
all-zero history the 90th-percentile baseline is 0, and the unguarded
division `(baseline - recent) / baseline` makes `_compute_fatigue`
return NaN (modelled as `none`) instead of a well-defined risk. -/
theorem zero_baseline_yields_nan :
    computeFatigue 24 [0, 0, 0, 0, 0] = none := by
  unfold computeFatigue
  rw [if_neg (by norm_num), speedDropMetric_zeros]

end AILeague

namespace AILeague

lemma computeFatigue_of_sd (fps : ℕ) (h : List ℚ) (sd : ℚ) (h5 : 5 ≤ h.length)
    (hsd : speedDropMetric fps h = some sd) :
    computeFatigue fps h =
      some (riskOfScore (scoreOf sd (sprintNorm h) (accelNorm fps h) postureDeg strideRed)) := by
  unfold computeFatigue
  rw [if_neg (by omega), hsd]

/-- C6 counterexample: the all-zero five-sample history has at least 5
samples, yet `_compute_fatigue` produces no real risk value there at all
(the unguarded division gives NaN), so on that input the risk does not
equal the logistic of the weighted sum of the five normalized metrics,
refuting the claim's quantification over every history of at least 5
samples. -/
theorem weighted_logistic_scorer_cx :
    5 ≤ ([0, 0, 0, 0, 0] : List ℚ).length
    ∧ (computeFatigue 24 [0, 0, 0, 0, 0]).isSome = false := by
  constructor
  · norm_num
  · unfold computeFatigue
    rw [if_neg (by norm_num), speedDropMetric_zeros]
    rfl

/-- C6 amended: the metric weights sum to 1; the scorer is exactly the
logistic `100 / (1 + exp(-10 (score - 0.5)))` of the weighted sum of the
five normalized metrics; a score of exactly 0.5 yields a risk of exactly
50; and for every history of at least 5 samples — except the degenerate
ones whose 90th-percentile baseline and recent-half mean are both zero,
where the unguarded division yields NaN — the computed risk is exactly
that logistic of the weighted sum. -/
theorem weighted_logistic_scorer :
    (wSpeedDrop + wSprintCount + wAccelEvents + wPostureDeg + wStrideReduction = 1)
    ∧ (∀ s : ℚ, riskOfScore s = 100 / (1 + Real.exp (-10 * ((s : ℝ) - 0.5))))
    ∧ riskOfScore (1 / 2) = 50
    ∧ (∀ (fps : ℕ) (h : List ℚ), 5 ≤ h.length →
        ¬(percentile90 h = 0 ∧ meanQ (pyTakeLast ((windowSize fps + 1) / 2) h) = 0) →
        ∃ sd, speedDropMetric fps h = some sd ∧
          computeFatigue fps h =
            some (riskOfScore (scoreOf sd (sprintNorm h) (accelNorm fps h) postureDeg strideRed))) := by
  refine ⟨by norm_num [wSpeedDrop, wSprintCount, wAccelEvents, wPostureDeg, wStrideReduction],
    fun s => rfl, ?_, ?_⟩
  · unfold riskOfScore
    norm_num
  · intro fps h h5 hdeg
    by_cases hb : percentile90 h = 0
    · have hr : meanQ (pyTakeLast ((windowSize fps + 1) / 2) h) ≠ 0 :=
        fun hr => hdeg ⟨hb, hr⟩
      have hsd : speedDropMetric fps h =
          some (if meanQ (pyTakeLast ((windowSize fps + 1) / 2) h) < 0 then 1 else 0) := by
        unfold speedDropMetric
        simp only [if_pos hb, if_neg hr]
      exact ⟨_, hsd, computeFatigue_of_sd fps h _ h5 hsd⟩
    · have hsd : speedDropMetric fps h =
          some (clip01 ((percentile90 h - meanQ (pyTakeLast ((windowSize fps + 1) / 2) h)) /
            percentile90 h)) := by
        unfold speedDropMetric
        simp only [if_neg hb]
      exact ⟨_, hsd, computeFatigue_of_sd fps h _ h5 hsd⟩

theorem weighted_logistic_scorer_witness :
    ∃ sd, speedDropMetric 24 [1, 1, 1, 1, 1] = some sd ∧
      computeFatigue 24 [1, 1, 1, 1, 1] =
        some (riskOfScore (scoreOf sd (sprintNorm [1, 1, 1, 1, 1])
          (accelNorm 24 [1, 1, 1, 1, 1]) postureDeg strideRed)) :=
  weighted_logistic_scorer.2.2.2 24 [1, 1, 1, 1, 1] (by norm_num)
    (by
      intro hc
      have := hc.1
      norm_num [percentile90, sortQ, insertQ, List.getD] at this)

/-- C7: holding the other four sub-metrics fixed, a strictly larger
speed-drop sub-metric (within [0, 1]) gives a strictly larger final
risk percentage. -/
theorem risk_strictMono_in_speed_drop (sd1 sd2 sc ae pd sr : ℚ)
    (_h0 : 0 ≤ sd1) (_h1 : sd2 ≤ 1) (hlt : sd1 < sd2) :
    riskOfScore (scoreOf sd1 sc ae pd sr) < riskOfScore (scoreOf sd2 sc ae pd sr) := by
  apply riskOfScore_strictMono
  unfold scoreOf
  have hw : (0 : ℚ) < wSpeedDrop := by norm_num [wSpeedDrop]
  nlinarith

theorem risk_strictMono_in_speed_drop_witness :
    riskOfScore (scoreOf 0 0 0 0 0) < riskOfScore (scoreOf 1 0 0 0 0) :=
  risk_strictMono_in_speed_drop 0 1 0 0 0 0 (by norm_num) (by norm_num) (by norm_num)

end AILeague

namespace AILeague

lemma sprintNorm_mem (h : List ℚ) : 0 ≤ sprintNorm h ∧ sprintNorm h ≤ 1 := by
  unfold sprintNorm
  exact ⟨clip01_nonneg _, clip01_le_one _⟩

lemma accelNorm_mem (fps : ℕ) (h : List ℚ) : 0 ≤ accelNorm fps h ∧ accelNorm fps h ≤ 1 := by
  unfold accelNorm
  exact ⟨clip01_nonneg _, clip01_le_one _⟩

lemma scoreOf_bounds {sd sc ae : ℚ} (hsd0 : 0 ≤ sd) (hsd1 : sd ≤ 1)
    (hsc0 : 0 ≤ sc) (hsc1 : sc ≤ 1) (hae0 : 0 ≤ ae) (hae1 : ae ≤ 1) :
    0 ≤ scoreOf sd sc ae postureDeg strideRed ∧ scoreOf sd sc ae postureDeg strideRed ≤ 1 := by
  unfold scoreOf postureDeg strideRed wSpeedDrop wSprintCount wAccelEvents wPostureDeg wStrideReduction
  constructor <;> nlinarith

lemma riskOfScore_bounds {s : ℚ} (h0 : 0 ≤ s) (h1 : s ≤ 1) :
    100 / (1 + Real.exp 5) ≤ riskOfScore s ∧ riskOfScore s ≤ 100 / (1 + Real.exp (-5)) := by
  have hs0 : (0 : ℝ) ≤ (s : ℝ) := by exact_mod_cast h0
  have hs1 : (s : ℝ) ≤ 1 := by exact_mod_cast h1
  unfold riskOfScore
  constructor
  · gcongr
    linarith
  · gcongr
    linarith

/-- C10: with at least 5 samples and a nonzero baseline, the computed
risk is strictly between 0 and 100, at least `100 / (1 + e^5)` and at
most `100 / (1 + e^-5)`; hence a risk of exactly 0 can only come from
insufficient history. -/
theorem computed_risk_bounded (fps : ℕ) (h : List ℚ) (h5 : 5 ≤ h.length)
    (hb : percentile90 h ≠ 0) :
    ∃ r : ℝ, computeFatigue fps h = some r ∧
      100 / (1 + Real.exp 5) ≤ r ∧ r ≤ 100 / (1 + Real.exp (-5)) ∧ 0 < r ∧ r < 100 := by
  refine ⟨_, computeFatigue_eq fps h h5 hb, ?_, ?_, riskOfScore_pos _, riskOfScore_lt_100 _⟩
  all_goals
    have hsc := scoreOf_bounds (clip01_nonneg
        ((percentile90 h - meanQ (pyTakeLast ((windowSize fps + 1) / 2) h)) / percentile90 h))
      (clip01_le_one _) (sprintNorm_mem h).1 (sprintNorm_mem h).2
      (accelNorm_mem fps h).1 (accelNorm_mem fps h).2
  · exact (riskOfScore_bounds hsc.1 hsc.2).1
  · exact (riskOfScore_bounds hsc.1 hsc.2).2

theorem computed_risk_bounded_witness :
    ∃ r : ℝ, computeFatigue 24 [1, 1, 1, 1, 1] = some r ∧
      100 / (1 + Real.exp 5) ≤ r ∧ r ≤ 100 / (1 + Real.exp (-5)) ∧ 0 < r ∧ r < 100 :=
  computed_risk_bounded 24 [1, 1, 1, 1, 1] (by norm_num)
    (by norm_num [percentile90, sortQ, insertQ, List.getD])

end AILeague

namespace AILeague

lemma record_append_or_drop (w : ℕ) (hw : 0 < w) (h : List ℚ) (s : ℚ) :
    record w h s = h ++ [s] ∨ record w h s = (h ++ [s]).drop (h.length + 1 - w) := by
  unfold record pyTakeLast
  by_cases hlen : w < (h ++ [s]).length
  · right
    rw [if_pos hlen, if_neg (by omega)]
    simp [List.length_append]
  · left
    rw [if_neg hlen]

lemma record_drop (w : ℕ) (hw : 0 < w) (l : List ℚ) (s : ℚ) :
    record w (l.drop (l.length - w)) s = (l ++ [s]).drop ((l ++ [s]).length - w) := by
  unfold record pyTakeLast
  by_cases hl : l.length < w
  · have h1 : l.length - w = 0 := by omega
    have h2 : ¬ w < (l.drop (l.length - w) ++ [s]).length := by
      simp [List.length_append, h1]
      omega
    rw [if_neg h2, h1]
    have h3 : (l ++ [s]).length - w = 0 := by simp [List.length_append]; omega
    rw [h3]
    simp
  · push_neg at hl
    have hdl : (l.drop (l.length - w)).length = w := by simp [List.length_drop]; omega
    have h2 : w < (l.drop (l.length - w) ++ [s]).length := by
      simp [List.length_append, hdl]
    rw [if_pos h2, if_neg (by omega)]
    have h4 : (l.drop (l.length - w) ++ [s]).length - w = 1 := by
      simp [List.length_append, hdl]
    rw [h4]
    have h5 : (l ++ [s]).length - w = l.length - w + 1 := by
      simp [List.length_append]; omega
    rw [h5]
    rw [List.drop_append_of_le_length (by omega), List.drop_append_of_le_length (by omega)]
    rw [List.drop_drop]

lemma foldl_record_eq (w : ℕ) (hw : 0 < w) (samples : List ℚ) :
    samples.foldl (record w) [] = samples.drop (samples.length - w) := by
  induction samples using List.reverseRecOn with
  | nil => simp
  | append_singleton xs x ih =>
      rw [List.foldl_append, List.foldl_cons, List.foldl_nil, ih, record_drop w hw]

/-- C4: the history window of an entity, grown from empty by recording
samples one at a time, never exceeds `window_size`; each record step is
an append (dropping the oldest samples first when over the cap); and
once more than `window_size` samples were recorded, the window holds
exactly the most recent `window_size` samples in chronological order. -/
theorem history_window_fifo (w : ℕ) (samples : List ℚ) (hw : 0 < w) :
    (samples.foldl (record w) []).length ≤ w
    ∧ samples.foldl (record w) [] = samples.drop (samples.length - w)
    ∧ (w < samples.length → (samples.foldl (record w) []).length = w)
    ∧ (∀ (h : List ℚ) (s : ℚ),
        record w h s = h ++ [s] ∨ record w h s = (h ++ [s]).drop (h.length + 1 - w)) := by
  refine ⟨?_, foldl_record_eq w hw samples, ?_, record_append_or_drop w hw⟩
  · rw [foldl_record_eq w hw samples]
    simp [List.length_drop]
    omega
  · intro hlt
    rw [foldl_record_eq w hw samples]
    simp [List.length_drop]
    omega

theorem history_window_fifo_witness :
    (([1, 2, 3] : List ℚ).foldl (record 2) []).length ≤ 2
    ∧ ([1, 2, 3] : List ℚ).foldl (record 2) [] = ([1, 2, 3] : List ℚ).drop (3 - 2)
    ∧ (2 < ([1, 2, 3] : List ℚ).length → (([1, 2, 3] : List ℚ).foldl (record 2) []).length = 2)
    ∧ (∀ (h : List ℚ) (s : ℚ),
        record 2 h s = h ++ [s] ∨ record 2 h s = (h ++ [s]).drop (h.length + 1 - 2)) := by
  have := history_window_fifo 2 [1, 2, 3] (by norm_num)
  simpa using this

end AILeague

namespace AILeague

/-- C1 counterexample: at frame 0 (a recompute frame) an entity present
in the track set but with a missing speed sample gets no `risk` entry
written at all — `update_metrics` skips it with `continue`. -/
theorem missing_speed_no_risk_write :
    (updateMetrics 24 0 [(1, ⟨none, none⟩)] initState).1 = [(1, ⟨none, none⟩)]
    ∧ ((updateMetrics 24 0 [(1, ⟨none, none⟩)] initState).1.map fun pt => pt.2.risk) = [none] := by
  constructor <;> rfl

/-- C1 amended: `update_metrics` writes the stored Risk Value into the
record only for entities whose speed sample is present this frame; an
entity with a missing speed sample is skipped entirely — no history
append, no recomputation, no risk write, and no state change — and its
record passes through `update_metrics` unmodified. -/
theorem update_metrics_write_policy (fps frameIdx pid : ℕ) (trk : Track) (st : EstState) :
    (trk.speed = none → processTrack fps frameIdx pid trk st = (trk, st))
    ∧ (∀ s : ℚ, trk.speed = some s →
        (processTrack fps frameIdx pid trk st).1.risk =
          some ((processTrack fps frameIdx pid trk st).2.risk pid))
    ∧ (∀ (tracks : List (ℕ × Track)) (st0 : EstState), ∀ pt ∈ tracks,
        pt.2.speed = none → pt ∈ (updateMetrics fps frameIdx tracks st0).1) := by
  refine ⟨?_, ?_, ?_⟩
  · intro hs
    unfold processTrack
    rw [hs]
  · intro s hs
    unfold processTrack
    rw [hs]
  · intro tracks
    induction tracks with
    | nil => intro st0 pt hpt; simp at hpt
    | cons hd rest ih =>
        intro st0 pt hpt hspd
        rcases List.mem_cons.mp hpt with heq | hmem
        · subst heq
          obtain ⟨hpid, htrk⟩ := pt
          unfold updateMetrics
          have : processTrack fps frameIdx hpid htrk st0 = (htrk, st0) := by
            unfold processTrack
            rw [hspd]
          rw [this]
          exact List.mem_cons_self _ _
        · obtain ⟨hpid, htrk⟩ := hd
          unfold updateMetrics
          exact List.mem_cons_of_mem _
            (ih (processTrack fps frameIdx hpid htrk st0).2 pt hmem hspd)

theorem update_metrics_write_policy_witness :
    (processTrack 24 0 1 ⟨none, none⟩ initState = (⟨none, none⟩, initState))
    ∧ ((processTrack 24 0 1 ⟨some 10, none⟩ initState).1.risk =
        some ((processTrack 24 0 1 ⟨some 10, none⟩ initState).2.risk 1))
    ∧ ((1, (⟨none, none⟩ : Track)) ∈
        (updateMetrics 24 5 [(1, ⟨none, none⟩)] initState).1) :=
  ⟨(update_metrics_write_policy 24 0 1 ⟨none, none⟩ initState).1 rfl,
   (update_metrics_write_policy 24 0 1 ⟨some 10, none⟩ initState).2.1 10 rfl,
   (update_metrics_write_policy 24 5 1 ⟨none, none⟩ initState).2.2
     [(1, ⟨none, none⟩)] initState (1, ⟨none, none⟩) (List.mem_cons_self _ _) rfl⟩

lemma processTrack_no_recompute (fps frameIdx pid : ℕ) (trk : Track) (st : EstState)
    (hcond : ¬(frameIdx % windowSize fps = 0 ∨ frameIdx = 0)) :
    (processTrack fps frameIdx pid trk st).2.risk = st.risk
    ∧ (processTrack fps frameIdx pid trk st).1 =
        (if trk.speed.isNone then trk else { trk with risk := some (st.risk pid) }) := by
  cases hs : trk.speed with
  | none =>
      unfold processTrack
      rw [hs]
      simp [Option.isNone, hs]
  | some s =>
      unfold processTrack
      rw [hs]
      simp [Option.isNone, hs, if_neg hcond]

/-- C3: on a frame whose index is not a multiple of `window_size`, the
stored Risk Values are left untouched by `update_metrics`, and every
record written that frame receives exactly the previously stored
(most recently recomputed) value. -/
theorem risk_recompute_cadence (fps frameIdx : ℕ) (tracks : List (ℕ × Track)) (st : EstState)
    (hfps : 0 < fps) (hmod : frameIdx % windowSize fps ≠ 0) :
    (updateMetrics fps frameIdx tracks st).2.risk = st.risk
    ∧ (updateMetrics fps frameIdx tracks st).1 =
        tracks.map fun pt =>
          (pt.1, if pt.2.speed.isNone then pt.2 else { pt.2 with risk := some (st.risk pt.1) }) := by
  have hcond : ¬(frameIdx % windowSize fps = 0 ∨ frameIdx = 0) := by
    rintro (hc | hc)
    · exact hmod hc
    · subst hc
      exact hmod (Nat.zero_mod _)
  induction tracks generalizing st with
  | nil => simp [updateMetrics]
  | cons pt rest ih =>
      obtain ⟨pid, trk⟩ := pt
      have hp := processTrack_no_recompute fps frameIdx pid trk st hcond
      have ihs := ih (processTrack fps frameIdx pid trk st).2
      unfold updateMetrics
      constructor
      · rw [ihs.1, hp.1]
      · simp only [List.map_cons]
        rw [ihs.2, hp.1, hp.2]

theorem risk_recompute_cadence_witness :
    (updateMetrics 24 1 [(1, ⟨some 10, none⟩)] initState).2.risk = initState.risk
    ∧ (updateMetrics 24 1 [(1, ⟨some 10, none⟩)] initState).1 =
        ([(1, ⟨some 10, none⟩)] : List (ℕ × Track)).map fun pt =>
          (pt.1, if pt.2.speed.isNone then pt.2
                 else { pt.2 with risk := some (initState.risk pt.1) }) :=
  risk_recompute_cadence 24 1 [(1, ⟨some 10, none⟩)] initState (by norm_num) (by decide)

end AILeague

namespace AILeague

lemma snapshotAux_of_forall_none (pid : ℕ) :
    ∀ l : List (ℕ → Option STrack), (∀ f ∈ l, extractAt pid f = none) →
      snapshotAux pid l = none := by
  intro l
  induction l with
  | nil => intro _; rfl
  | cons f rest ih =>
      intro hall
      have hf : extractAt pid f = none := hall f (List.mem_cons_self f rest)
      unfold snapshotAux
      rw [hf]
      exact ih fun g hg => hall g (List.mem_cons_of_mem f hg)

lemma snapshot_of_last_valid (pid : ℕ) :
    ∀ (frames : List (ℕ → Option STrack)) (i : ℕ) (hi : i < frames.length)
      (snap : ℚ × ℚ × ℝ),
      extractAt pid (frames.get ⟨i, hi⟩) = some snap →
      (∀ j (hj : j < frames.length), i < j → extractAt pid (frames.get ⟨j, hj⟩) = none) →
      snapshot frames pid = snap := by
  intro frames
  induction frames using List.reverseRecOn with
  | nil =>
      intro i hi
      simp at hi
  | append_singleton xs x ih =>
      intro i hi snap hx hafter
      have hlen : (xs ++ [x]).length = xs.length + 1 := by simp
      by_cases hix : i = xs.length
      · subst hix
        have hget : (xs ++ [x]).get ⟨xs.length, hi⟩ = x := by
          simp [List.get_eq_getElem, List.getElem_concat_length]
        rw [hget] at hx
        unfold snapshot
        rw [List.reverse_append]
        simp only [List.reverse_singleton, List.singleton_append]
        unfold snapshotAux
        rw [hx]
        rfl
      · have hi' : i < xs.length := by
          have := hi
          rw [hlen] at this
          omega
        have hxnone : extractAt pid x = none := by
          have hj : xs.length < (xs ++ [x]).length := by omega
          have := hafter xs.length hj (by omega)
          have hget : (xs ++ [x]).get ⟨xs.length, hj⟩ = x := by
            simp [List.get_eq_getElem, List.getElem_concat_length]
          rwa [hget] at this
        have hx' : extractAt pid (xs.get ⟨i, hi'⟩) = some snap := by
          have hget : (xs ++ [x]).get ⟨i, hi⟩ = xs.get ⟨i, hi'⟩ := by
            simp only [List.get_eq_getElem]
            exact List.getElem_append_left hi'
          rwa [hget] at hx
        have hafter' : ∀ j (hj : j < xs.length), i < j →
            extractAt pid (xs.get ⟨j, hj⟩) = none := by
          intro j hj hij
          have hj2 : j < (xs ++ [x]).length := by omega
          have hget : (xs ++ [x]).get ⟨j, hj2⟩ = xs.get ⟨j, hj⟩ := by
            simp only [List.get_eq_getElem]
            exact List.getElem_append_left hj
          have := hafter j hj2 hij
          rwa [hget] at this
        have hs := ih i hi' snap hx' hafter'
        unfold snapshot at hs ⊢
        rw [List.reverse_append]
        simp only [List.reverse_singleton, List.singleton_append]
        unfold snapshotAux
        rw [hxnone]
        exact hs

/-- C8: the exported snapshot for an entity is taken from the latest
frame (scanning from last to first) at which the entity has a
non-missing speed; if no such frame exists, the snapshot is exactly
`(0, 0, 0)`; and the entity is still included in the summary either way. -/
theorem summary_snapshot_last_valid (frames : List (ℕ → Option STrack)) (pid : ℕ) :
    ((∀ i (hi : i < frames.length), extractAt pid (frames.get ⟨i, hi⟩) = none) →
      snapshot frames pid = (0, 0, 0))
    ∧ (∀ i (hi : i < frames.length) (snap : ℚ × ℚ × ℝ),
        extractAt pid (frames.get ⟨i, hi⟩) = some snap →
        (∀ j (hj : j < frames.length), i < j → extractAt pid (frames.get ⟨j, hj⟩) = none) →
        snapshot frames pid = snap)
    ∧ (∀ pids : List ℕ, pid ∈ pids → (pid, snapshot frames pid) ∈ summaryOf pids frames) := by
  refine ⟨?_, fun i hi snap hx hafter => snapshot_of_last_valid pid frames i hi snap hx hafter, ?_⟩
  · intro hall
    have hnone : snapshotAux pid frames.reverse = none := by
      apply snapshotAux_of_forall_none
      intro f hf
      rw [List.mem_reverse] at hf
      obtain ⟨n, hn⟩ := List.mem_iff_get.mp hf
      rw [← hn]
      exact hall n.1 n.2
    unfold snapshot
    rw [hnone]
    rfl
  · intro pids hmem
    unfold summaryOf
    exact List.mem_map.mpr ⟨pid, hmem, rfl⟩

theorem summary_snapshot_last_valid_witness :
    snapshot wFrames 7 = (3, 6, 30) :=
  (summary_snapshot_last_valid wFrames 7).2.1 10 (by norm_num [wFrames]) (3, 6, 30) rfl
    (by
      intro j hj hlt
      have hL : wFrames.length = 11 := rfl
      rw [hL] at hj
      omega)

end AILeague

namespace AILeague

lemma tbcGo_eq_aux :
    ∀ (l : List PossFrame) (i : ℕ) (acc : List String),
      tbcGo i acc l = acc ++ tbcAux i (acc.getLastD "none") l := by
  intro l
  induction l with
  | nil => intro i acc; simp [tbcGo, tbcAux]
  | cons pf rest ih =>
      intro i acc
      unfold tbcGo tbcAux possLabel
      by_cases hb : pf.ballDetected = false
      · rw [if_pos hb, if_pos hb, ih]
        simp [List.getLastD_concat]
      · rw [if_neg hb, if_neg hb]
        by_cases ho : pf.ownerPid ≠ -1
        · rw [if_pos ho, if_pos ho, ih]
          simp [List.getLastD_concat]
        · rw [if_neg ho, if_neg ho, ih]
          simp [List.getLastD_concat]

lemma tbcAux_length :
    ∀ (l : List PossFrame) (i : ℕ) (prev : String), (tbcAux i prev l).length = l.length := by
  intro l
  induction l with
  | nil => intro i prev; rfl
  | cons pf rest ih => intro i prev; simp [tbcAux, ih]

lemma tbcAux_getD_zero (i : ℕ) (prev : String) (pf : PossFrame) (rest : List PossFrame) :
    (tbcAux i prev (pf :: rest)).getD 0 "" = possLabel i prev pf := rfl

lemma tbcAux_getD_succ :
    ∀ (l : List PossFrame) (i : ℕ) (prev : String) (j : ℕ) (hj : j + 1 < l.length),
      (tbcAux i prev l).getD (j + 1) "" =
        possLabel (i + j + 1) ((tbcAux i prev l).getD j "") (l.get ⟨j + 1, hj⟩) := by
  intro l
  induction l with
  | nil => intro i prev j hj; simp at hj
  | cons pf rest ih =>
      intro i prev j hj
      cases j with
      | zero =>
          cases rest with
          | nil => simp at hj
          | cons pf2 rest2 => rfl
      | succ m =>
          have hm : m + 1 < rest.length := by
            simp at hj
            omega
          have hstep := ih (i + 1) (possLabel i prev pf) m hm
          show (tbcAux (i + 1) (possLabel i prev pf) rest).getD (m + 1) "" = _
          rw [hstep]
          have harith : i + 1 + m + 1 = i + (m + 1) + 1 := by omega
          rw [harith]
          rfl

lemma teamBallControl_eq (frames : List PossFrame) :
    teamBallControl frames = tbcAux 0 "none" frames := by
  unfold teamBallControl
  rw [tbcGo_eq_aux]
  rfl

/-- C9: the possession label list has one label per frame; a frame with
no ball detection, or with a ball assigned to no entity, carries forward
the previous frame's label (label "none" at frame 0); a frame with an
assigned entity takes that entity's team label. -/
theorem possession_carry_forward (frames : List PossFrame) :
    (teamBallControl frames).length = frames.length
    ∧ ∀ i (hi : i < frames.length),
        (((frames.get ⟨i, hi⟩).ballDetected = false ∨ (frames.get ⟨i, hi⟩).ownerPid = -1) →
          (teamBallControl frames).getD i "" =
            (if i = 0 then "none" else (teamBallControl frames).getD (i - 1) ""))
        ∧ ((frames.get ⟨i, hi⟩).ballDetected = true → (frames.get ⟨i, hi⟩).ownerPid ≠ -1 →
          (teamBallControl frames).getD i "" =
            (frames.get ⟨i, hi⟩).team (frames.get ⟨i, hi⟩).ownerPid) := by
  rw [teamBallControl_eq]
  refine ⟨tbcAux_length frames 0 "none", ?_⟩
  intro i hi
  have hg : (tbcAux 0 "none" frames).getD i "" =
      possLabel i (if i = 0 then "none" else (tbcAux 0 "none" frames).getD (i - 1) "")
        (frames.get ⟨i, hi⟩) := by
    cases i with
    | zero =>
        cases frames with
        | nil => simp at hi
        | cons pf rest =>
            rw [tbcAux_getD_zero]
            rfl
    | succ j =>
        have := tbcAux_getD_succ frames 0 "none" j hi
        rw [this, Nat.zero_add]
        simp
  constructor
  · intro hcarry
    rw [hg]
    unfold possLabel
    rcases hcarry with hb | ho
    · rw [if_pos hb]
      by_cases hz : i = 0 <;> simp [hz]
    · by_cases hb : (frames.get ⟨i, hi⟩).ballDetected = false
      · rw [if_pos hb]
        by_cases hz : i = 0 <;> simp [hz]
      · rw [if_neg hb, if_neg (by simp only [ne_eq, not_not]; exact ho)]
        by_cases hz : i = 0 <;> simp [hz]
  · intro hb ho
    rw [hg]
    unfold possLabel
    rw [if_neg (by rw [hb]; simp), if_pos ho]

theorem possession_carry_forward_witness :
    ((teamBallControl wPoss).getD 0 "" =
      (if 0 = 0 then "none" else (teamBallControl wPoss).getD (0 - 1) ""))
    ∧ ((teamBallControl wPoss).getD 1 "" =
        (wPoss.get ⟨1, by norm_num [wPoss]⟩).team (wPoss.get ⟨1, by norm_num [wPoss]⟩).ownerPid)
    ∧ ((teamBallControl wPoss).getD 2 "" =
        (if 2 = 0 then "none" else (teamBallControl wPoss).getD (2 - 1) "")) :=
  ⟨((possession_carry_forward wPoss).2 0 (by norm_num [wPoss])).1 (Or.inl rfl),
   ((possession_carry_forward wPoss).2 1 (by norm_num [wPoss])).2 rfl (by norm_num [wPoss]),
   ((possession_carry_forward wPoss).2 2 (by norm_num [wPoss])).1 (Or.inr rfl)⟩

end AILeague
